import Mathlib

/-!
Verification of the `file_organizer` package: a shallow embedding of its
data model and engines, with theorems checking the specification's claims.

Embedding conventions:
* Python `pathlib.Path` values are lists of path segments (`FsPath`);
  `Path.name`, `Path.suffix`, `Path.stem` are re-implemented from CPython's
  pathlib semantics over the final segment.
* Python `dict` values (insertion ordered) are association lists; setting an
  existing key updates it in place, setting a new key appends it.
* Python `float` confidence scores are rationals (`Rat`): every arithmetic
  operation performed on them by the source (min, max, +, *) is exact.
* Python `sorted(..., reverse=True)` (a stable descending sort) is a stable
  insertion sort by a `Nat` key (`sortDescBy`).
* Filesystem effects and the optional external backends (libmagic, tika) are
  oracles: `shutil.move` success is a boolean oracle, the MIME detector and
  the metadata-extraction backend return `Except` values (an `.error` result
  stands for the Python call raising an exception).
-/

/-- A filesystem path, as its list of segments. -/
abbrev FsPath := List String

/-- The final segment of a path: CPython `PurePath.name` (empty for the
empty path). -/
def pathName (p : FsPath) : String := p.getLastD ""

/-- CPython `PurePath.suffix` applied to a file name: the substring from the
last dot onward, provided that dot is neither the first nor the last
character; otherwise the empty string. -/
def nameSuffix (name : String) : String :=
  let cs := name.toList
  if cs.contains '.' then
    let tail := (cs.reverse.takeWhile (fun c => c ≠ '.')).reverse
    let i := cs.length - 1 - tail.length
    if 0 < i ∧ i < cs.length - 1 then String.mk ('.' :: tail) else ""
  else ""

/-- CPython `PurePath.suffix` of a path. -/
def pathSuffix (p : FsPath) : String := nameSuffix (pathName p)

/-- CPython `PurePath.stem` of a path: the name minus its suffix. -/
def pathStem (p : FsPath) : String :=
  let name := pathName p
  let suf := nameSuffix name
  String.mk (name.toList.take (name.toList.length - suf.toList.length))

/-- Python `str.title()` worker: uppercase an alphabetic character that
follows a non-alphabetic one, lowercase the rest, as CPython does with
cased characters. -/
def titleAux : Bool → List Char → List Char
  | _, [] => []
  | prevAlpha, c :: cs =>
    (if c.isAlpha then (if prevAlpha then c.toLower else c.toUpper) else c)
      :: titleAux c.isAlpha cs

/-- Python `str.title()`. -/
def titleCase (s : String) : String := String.mk (titleAux false s.toList)

/-- Python `str.lower()`, character by character (ASCII-faithful). -/
def strToLower (s : String) : String := String.mk (s.toList.map Char.toLower)

/-- Python `str.strip()` with no argument: drop whitespace at both ends. -/
def strTrim (s : String) : String :=
  String.mk ((s.toList.dropWhile Char.isWhitespace).reverse.dropWhile
    Char.isWhitespace).reverse

/-- Whether the first character list is an initial segment of the second. -/
def charsLead : List Char → List Char → Bool
  | [], _ => true
  | _ :: _, [] => false
  | a :: as, b :: bs => a == b && charsLead as bs

/-- Python `s.startswith(pre)`. -/
def strStartsWith (s pre : String) : Bool := charsLead pre.toList s.toList

/-- Python character slicing `s[:n]`. -/
def strTake (s : String) (n : Nat) : String := String.mk (s.toList.take n)

/-- Python `" ".join(ws)`, as a character list. -/
def joinSpaceChars : List String → List Char
  | [] => []
  | [w] => w.toList
  | w :: ws => w.toList ++ ' ' :: joinSpaceChars ws

/-- Python `" ".join(ws)`. -/
def joinWithSpace (ws : List String) : String := String.mk (joinSpaceChars ws)

/-- Worker for Python `s.split()`: `cur` holds the reversed characters of
the word being accumulated. -/
def splitWsAux : List Char → List Char → List String
  | [], cur => if cur = [] then [] else [String.mk cur.reverse]
  | c :: cs, cur =>
    if c.isWhitespace then
      (if cur = [] then [] else [String.mk cur.reverse]) ++ splitWsAux cs []
    else splitWsAux cs (c :: cur)

/-- Python `s.split()` with no argument: split on whitespace runs,
producing no empty pieces. -/
def pySplit (s : String) : List String := splitWsAux s.toList []

/-- Lookup in an insertion-ordered dictionary with a default:
Python `d.get(k, default)`. -/
def dictGetD (m : List (String × α)) (k : String) (d : α) : α :=
  match m.find? (fun p => p.1 == k) with
  | some p => p.2
  | none => d

/-- Assignment in an insertion-ordered dictionary: Python `d[k] = v`
(updates the existing key in place — keys of a dictionary are unique — or
appends a fresh key at the end). -/
def dictSet : List (String × α) → String → α → List (String × α)
  | [], k, v => [(k, v)]
  | p :: ps, k, v => if p.1 == k then (k, v) :: ps else p :: dictSet ps k v

/-- Stable descending insertion by a `Nat` key: the new element goes in
front of the first element whose key is not larger. -/
def insertDescBy (f : α → Nat) (x : α) : List α → List α
  | [] => [x]
  | y :: ys => if f y ≤ f x then x :: y :: ys else y :: insertDescBy f x ys

/-- Python `sorted(l, key=f, reverse=True)`: a stable descending sort. -/
def sortDescBy (f : α → Nat) (l : List α) : List α :=
  l.foldr (insertDescBy f) []

/-- One file under processing: `file_organizer.core.models.FileObject`. -/
structure FileObject where
  path : FsPath
  mime_type : String
  metadata : List (String × String) := []
  labels : List String := []
  confidence_score : Rat := 0
  is_consistent : Bool := true
  target_path : Option FsPath := none
  errors : List String := []
deriving Repr, DecidableEq

/-- The persisted label-frequency store:
`file_organizer.core.learning.LearningStore`. -/
structure LearningStore where
  extension_labels : List (String × List (String × Nat)) := []
  mime_labels : List (String × List (String × Nat)) := []
deriving Repr, DecidableEq

/-- The candidate-merging loops of `LearningStore.suggest_labels`: fold the
label counts of `src` into the dictionary `cand` additively. -/
def mergeCounts (cand src : List (String × Nat)) : List (String × Nat) :=
  src.foldl (fun cand lc => dictSet cand lc.1 (dictGetD cand lc.1 0 + lc.2)) cand

/-- The total count a label key carries in a count table (equals the
plain lookup once keys are unique). -/
def sumCounts (src : List (String × Nat)) (k : String) : Nat :=
  ((src.filter (fun p => p.1 == k)).map (fun p => p.2)).sum

/-- The merged candidate dictionary built by `suggest_labels` for a file:
extension-table counts plus MIME-table counts, label by label. -/
def candidatesFor (store : LearningStore) (fo : FileObject) : List (String × Nat) :=
  let extension := strToLower (pathSuffix fo.path)
  let mime_type := fo.mime_type
  mergeCounts (mergeCounts [] (dictGetD store.extension_labels extension []))
    (dictGetD store.mime_labels mime_type [])

/-- `LearningStore.suggest_labels`: merge the two per-key count tables,
sort the candidate labels by combined count descending (Python's stable
`sorted`), return the top `limit` labels and a confidence boost of
`min(20, 2 * top count)`; empty list and boost 0 when there are no
candidates. -/
def LearningStore.suggest_labels (store : LearningStore) (fo : FileObject)
    (limit : Nat) : List String × Rat :=
  let candidates := candidatesFor store fo
  match sortDescBy (fun p => p.2) candidates with
  | [] => ([], 0)
  | top :: rest =>
    let sorted_labels := (top :: rest).map (fun p => p.1)
    let confidence_boost : Rat := min 20 ((dictGetD candidates top.1 0 : Nat) * 2)
    (sorted_labels.take limit, confidence_boost)

/-- `LearningStore.update`: no-op without labels; otherwise increment the
count of the lower-cased first label under both the extension table and the
MIME-type table. -/
def LearningStore.update (store : LearningStore) (fo : FileObject) : LearningStore :=
  match fo.labels with
  | [] => store
  | l0 :: _ =>
    let extension := strToLower (pathSuffix fo.path)
    let mime_type := fo.mime_type
    let primary_label := strToLower l0
    let extTable := dictGetD store.extension_labels extension []
    let extTable := dictSet extTable primary_label (dictGetD extTable primary_label 0 + 1)
    let mimeTable := dictGetD store.mime_labels mime_type []
    let mimeTable := dictSet mimeTable primary_label (dictGetD mimeTable primary_label 0 + 1)
    { extension_labels := dictSet store.extension_labels extension extTable,
      mime_labels := dictSet store.mime_labels mime_type mimeTable }

/-- The state of the learning-state file as `LearningStore.load` can see
it: absent, a valid JSON object whose two known fields are optionally
present, or contents `json.loads` cannot parse as an object. -/
inductive StateFile where
  | absent
  | object (ext : Option (List (String × List (String × Nat))))
      (mime : Option (List (String × List (String × Nat))))
  | malformed (raw : String)
deriving Repr, DecidableEq

/-- `LearningStore.load`: an absent file yields an empty store; a valid
JSON object yields a store whose missing fields default to empty mappings
(`data.get(..., {})`); on malformed contents `json.loads` raises (the code
does not catch it), modelled as an `Except.error`. -/
def LearningStore.load : StateFile → Except String LearningStore
  | StateFile.absent => Except.ok {}
  | StateFile.object ext mime =>
      Except.ok { extension_labels := ext.getD [], mime_labels := mime.getD [] }
  | StateFile.malformed _ => Except.error "json.decoder.JSONDecodeError"

/-- The organization engine's configuration:
`file_organizer.engines.organization_engine.OrganizationEngine`. -/
structure OrgEngine where
  confidence_threshold : Rat
  staging_dir_name : String
deriving Repr, DecidableEq

/-- `OrganizationEngine.determine_category`: fixed priority order over MIME
type and extension, defaulting to `Documents/<title-cased first label>`. -/
def determine_category (fo : FileObject) : FsPath :=
  let mime_type := fo.mime_type
  let label := match fo.labels with
    | [] => "uncategorized"
    | l :: _ => l
  let extension := strToLower (pathSuffix fo.path)
  if strStartsWith mime_type "image/" then ["Media", "Photos"]
  else if strStartsWith mime_type "video/" then ["Media", "Videos"]
  else if strStartsWith mime_type "audio/" then ["Media", "Audio"]
  else if mime_type = "application/pdf" then ["Documents", "PDFs"]
  else if extension ∈ [".py", ".js", ".ts", ".java", ".go", ".rb"] then ["Code", "Scripts"]
  else if strStartsWith mime_type "text/" then ["Documents", "Text"]
  else ["Documents", titleCase label]

/-- The destination directory `organize_files` picks for one record: the
staging directory when the record has errors or a confidence score below
the threshold, otherwise the category directory under `root`. -/
def destinationDir (eng : OrgEngine) (root : FsPath) (fo : FileObject) : FsPath :=
  if fo.errors ≠ [] ∨ fo.confidence_score < eng.confidence_threshold then
    root ++ [eng.staging_dir_name]
  else root ++ determine_category fo

/-- The body of the `organize_files` loop for one record. `moveOk src dst`
is the oracle for `shutil.move` succeeding. Returns the (possibly updated)
record and whether it was counted as staged: the move is skipped when the
destination equals the current path, `target_path` is set exactly on a
successful move, and a failed move leaves the record unchanged (the
exception is caught and logged). -/
def organizeStep (eng : OrgEngine) (root : FsPath) (moveOk : FsPath → FsPath → Bool)
    (fo : FileObject) : FileObject × Bool :=
  let staged : Bool := decide (fo.errors ≠ [] ∨ fo.confidence_score < eng.confidence_threshold)
  let destination := destinationDir eng root fo ++ [pathName fo.path]
  if destination = fo.path then (fo, staged)
  else if moveOk fo.path destination then
    ({ fo with target_path := some destination }, staged)
  else (fo, staged)

/-- `OrganizationEngine.organize_files`: process each record in order,
returning the updated records and the `moved` / `staged` summary counts. -/
def organize_files (eng : OrgEngine) (root : FsPath) (moveOk : FsPath → FsPath → Bool) :
    List FileObject → List FileObject × Nat × Nat
  | [] => ([], 0, 0)
  | fo :: rest =>
    let step := organizeStep eng root moveOk fo
    let res := organize_files eng root moveOk rest
    (step.1 :: res.1,
      (if step.2 then res.2.1 else res.2.1 + 1),
      (if step.2 then res.2.2 + 1 else res.2.2))

/-- Result container of the metadata-extraction backend:
`metadata_processor.MetadataResult`. -/
structure MetadataResult where
  metadata : List (String × String)
  content : String
deriving Repr, DecidableEq

/-- The external world seen by one `process_file` call: the outcome of the
MIME detector (libmagic may raise on an unreadable path — `.error`; the
`mimetypes` fallback returns a string) and the outcome of the
metadata-extraction backend (tika or a plain file read, which may raise,
e.g. `PermissionError`). -/
structure ProcEnv where
  mime_result : Except String String
  extract_result : Except String MetadataResult
deriving Repr

/-- The fixed metadata keys trusted as labels:
`metadata_processor.ESSENTIAL_METADATA_KEYS`. -/
def ESSENTIAL_METADATA_KEYS : List String := ["title", "author", "created"]

/-- `MetadataProcessor.validate_filename`: consistent when there is no
(non-empty) title, or the title equals the filename stem after lowering and
trimming both. -/
def validate_filename (file_path : FsPath) (metadata : List (String × String)) : Bool :=
  match (metadata.find? (fun p => p.1 == "title")).map (fun p => p.2) with
  | none => true
  | some title =>
    if title = "" then true
    else strTrim (strToLower (pathStem file_path)) == strTrim (strToLower title)

/-- The punctuation characters stripped from tokens by the word-frequency
fallback of `generate_labels` (the Python strip set `".,!?:;()[]\x7b\x7d"`). -/
def punctChars : List Char := ['.', ',', '!', '?', ':', ';', '(', ')', '[', ']', '\x7b', '\x7d']

/-- Python `word.strip(chars)`: drop leading and trailing characters that
belong to the given set. -/
def stripChars (set : List Char) (s : String) : String :=
  String.mk (((s.toList.dropWhile (fun c => set.contains c)).reverse.dropWhile
    (fun c => set.contains c)).reverse)

/-- `MetadataProcessor.generate_labels`, with the optional TF-IDF backend
absent (the deterministic fallback the design mandates): essential-metadata
values become up to 5 labels at confidence 90; otherwise a word-frequency
count over the whitespace-collapsed first 2000 characters yields up to 5
labels at confidence `min(100, 50 + 10 * labelCount)`, or no labels and
confidence 0. -/
def generate_labels (content : String) (metadata : List (String × String)) :
    List String × Rat :=
  let metadata_labels := metadata.filterMap (fun kv =>
    if kv.1 ∈ ESSENTIAL_METADATA_KEYS ∧ kv.2 ≠ "" then some (strToLower kv.2) else none)
  if metadata_labels ≠ [] then (metadata_labels.take 5, 90)
  else
    let sample_text := strTake (joinWithSpace (pySplit content)) 2000
    if sample_text = "" then ([], 0)
    else
      let words := (pySplit sample_text).map (fun w => strToLower (stripChars punctChars w))
      let words := words.filter (fun w => 3 < w.length)
      let frequency := words.foldl
        (fun freq w => dictSet freq w (dictGetD freq w 0 + 1)) ([] : List (String × Nat))
      let labels := ((sortDescBy (fun p => p.2) frequency).map (fun p => p.1)).take 5
      if labels ≠ [] then (labels, min 100 (50 + (labels.length : Rat) * 10)) else (labels, 0)

/-- The recognized image extensions of `process_file`. -/
def image_extensions : List String := [".jpg", ".jpeg", ".png", ".gif", ".bmp", ".webp"]

/-- The image branch of `process_file`: under an image MIME prefix or a
recognized image extension, assign label `photo` only when no labels exist,
and raise confidence to at least 85 unconditionally. -/
def imageOverride (mime_type extension : String) (labels : List String)
    (confidence : Rat) : List String × Rat :=
  if strStartsWith mime_type "image/" ∨ extension ∈ image_extensions then
    ((if labels = [] then ["photo"] else labels), max confidence 85)
  else (labels, confidence)

/-- The video branch of `process_file`: label `video` at confidence 85 only
when no labels exist yet. -/
def videoOverride (mime_type : String) (labels : List String) (confidence : Rat) :
    List String × Rat :=
  if labels = [] ∧ strStartsWith mime_type "video/" then (["video"], 85)
  else (labels, confidence)

/-- The audio branch of `process_file`: label `audio` at confidence 85 only
when no labels exist yet. -/
def audioOverride (mime_type : String) (labels : List String) (confidence : Rat) :
    List String × Rat :=
  if labels = [] ∧ strStartsWith mime_type "audio/" then (["audio"], 85)
  else (labels, confidence)

/-- The learning-augmentation branch of `process_file`: when the store
yields suggestions, replace the labels only if they are empty or exactly
one single-label media override, and (outside that inner condition) add the
boost to the confidence, capped at 100. -/
def learningAugment (store : Option LearningStore) (fo : FileObject)
    (labels : List String) (confidence : Rat) : List String × Rat :=
  match store with
  | none => (labels, confidence)
  | some ls =>
    let sb := ls.suggest_labels fo 3
    if sb.1 ≠ [] then
      ((if labels = [] ∨ labels = ["photo"] ∨ labels = ["video"] ∨ labels = ["audio"]
         then sb.1 else labels),
       min 100 (confidence + sb.2))
    else (labels, confidence)

/-- `MetadataProcessor.process_file`: MIME detection runs before the `try`
block, so its exception propagates (`.error`); inside the block, an
extraction failure is caught and recorded into the record's `errors`, and
otherwise consistency checking, label generation (on the first 500
characters of content), the media overrides and the learning augmentation
run in order, always returning a record. -/
def process_file (env : ProcEnv) (learning_store : Option LearningStore)
    (file_path : FsPath) : Except String FileObject :=
  match env.mime_result with
  | Except.error e => Except.error e
  | Except.ok mime_type =>
    let file_object : FileObject := { path := file_path, mime_type := mime_type }
    match env.extract_result with
    | Except.error e => Except.ok { file_object with errors := file_object.errors ++ [e] }
    | Except.ok result =>
      let file_object := { file_object with
        metadata := result.metadata,
        is_consistent := validate_filename file_path result.metadata }
      let lc := generate_labels (strTake result.content 500) result.metadata
      let lc := imageOverride file_object.mime_type (strToLower (pathSuffix file_path)) lc.1 lc.2
      let lc := videoOverride file_object.mime_type lc.1 lc.2
      let lc := audioOverride file_object.mime_type lc.1 lc.2
      let lc := learningAugment learning_store file_object lc.1 lc.2
      Except.ok { file_object with labels := lc.1, confidence_score := lc.2 }

/-- A snapshot of the directory tree: the directories and the regular files
that currently exist, each as a full path. -/
structure Fs where
  dirs : List FsPath
  files : List FsPath
deriving Repr, DecidableEq

/-- Whether `p` is an initial segment of `q` (an ancestor-or-equal path). -/
def leadsTo : FsPath → FsPath → Bool
  | [], _ => true
  | _ :: _, [] => false
  | a :: as, b :: bs => a == b && leadsTo as bs

/-- The entries (immediate children, files or directories) of a directory
in the snapshot: `directory.iterdir()`. -/
def dirEntries (fs : Fs) (d : FsPath) : List FsPath :=
  (fs.dirs ++ fs.files).filter (fun p => p.length = d.length + 1 ∧ leadsTo d p)

/-- The loop body of `CleanupEngine.remove_empty_directories`: remove the
directory when it has no entries at evaluation time (`not any(iterdir())`,
then `rmdir`), bumping the removal count; otherwise leave it alone. -/
def cleanupStep (acc : Fs × Nat) (d : FsPath) : Fs × Nat :=
  if dirEntries acc.1 d = [] then
    ({ acc.1 with dirs := acc.1.dirs.filter (fun p => p ≠ d) }, acc.2 + 1)
  else acc

/-- `CleanupEngine.remove_empty_directories`: list every directory strictly
under `root` (`root.rglob("*")`), sort by segment count descending
(deepest first, Python's stable `sorted` with `reverse=True`), then in one
sweep apply `cleanupStep` to each. Returns the updated snapshot and the
number of directories removed. -/
def remove_empty_directories (fs : Fs) (root : FsPath) : Fs × Nat :=
  let directories := sortDescBy (fun p => p.length)
    (fs.dirs.filter (fun d => d ≠ root ∧ leadsTo root d))
  directories.foldl cleanupStep (fs, 0)

/-- The Learning-Store loop of `OrganizeCommand.execute` in `main.py`:
after `organize_files`, every record without errors and with confidence at
or above the threshold is fed to `LearningStore.update` — the loop never
consults `target_path` or the move outcome. -/
def organizeCommandUpdates (threshold : Rat) (records : List FileObject)
    (store : LearningStore) : LearningStore :=
  records.foldl
    (fun s fo =>
      if fo.errors ≠ [] then s
      else if fo.confidence_score < threshold then s
      else s.update fo)
    store

/-- `OrganizeCommand.execute` in `main.py`: run the organization engine,
then apply the Learning-Store update loop to the records it returned. -/
def organizeCommand (eng : OrgEngine) (root : FsPath) (moveOk : FsPath → FsPath → Bool)
    (files : List FileObject) (store : LearningStore) :
    (List FileObject × Nat × Nat) × LearningStore :=
  let res := organize_files eng root moveOk files
  (res, organizeCommandUpdates eng.confidence_threshold res.1 store)

/-! Helper lemmas about the dictionary and sorting embeddings. -/

theorem dictGetD_dictSet_self (m : List (String × α)) (k : String) (v d : α) :
    dictGetD (dictSet m k v) k d = v := by
  induction m with
  | nil => simp [dictSet, dictGetD]
  | cons p ps ih =>
    by_cases h : p.1 = k
    · simp [dictSet, dictGetD, h]
    · simp only [dictSet, dictGetD] at *
      simp [h, ih]

theorem dictGetD_dictSet_ne (m : List (String × α)) (k k' : String) (v : α) (d : α)
    (h : k' ≠ k) : dictGetD (dictSet m k v) k' d = dictGetD m k' d := by
  induction m with
  | nil => simp [dictSet, dictGetD, h, Ne.symm h]
  | cons p ps ih =>
    by_cases hp : p.1 = k
    · simp [dictSet, dictGetD, hp, h, Ne.symm h]
    · by_cases hp' : p.1 = k'
      · simp [dictSet, dictGetD, hp, hp', h, Ne.symm h]
      · simp only [dictSet, dictGetD] at *
        simp [hp, hp', ih]

theorem mem_keys_dictSet (m : List (String × α)) (k a : String) (v : α) :
    a ∈ (dictSet m k v).map Prod.fst ↔ a = k ∨ a ∈ m.map Prod.fst := by
  induction m with
  | nil => simp [dictSet]
  | cons p ps ih =>
    by_cases hp : p.1 = k
    · simp only [dictSet, hp, beq_self_eq_true, if_true, List.map_cons, List.mem_cons]
      tauto
    · simp only [dictSet, beq_iff_eq, hp, if_false, List.map_cons, List.mem_cons, ih]
      tauto

theorem nodupKeys_dictSet (m : List (String × α)) (k : String) (v : α)
    (h : (m.map Prod.fst).Nodup) : ((dictSet m k v).map Prod.fst).Nodup := by
  induction m with
  | nil => simp [dictSet]
  | cons p ps ih =>
    simp only [List.map_cons, List.nodup_cons] at h
    by_cases hp : p.1 = k
    · simp only [dictSet, hp, beq_self_eq_true, if_true, List.map_cons, List.nodup_cons]
      exact ⟨hp ▸ h.1, h.2⟩
    · simp only [dictSet, beq_iff_eq, hp, if_false, List.map_cons, List.nodup_cons]
      refine ⟨?_, ih h.2⟩
      rw [mem_keys_dictSet]
      rintro (rfl | hmem)
      · exact hp rfl
      · exact h.1 hmem

theorem dictGetD_eq_of_mem_nodup (m : List (String × α)) (p : String × α) (d : α)
    (hnd : (m.map Prod.fst).Nodup) (hp : p ∈ m) : dictGetD m p.1 d = p.2 := by
  induction m with
  | nil => cases hp
  | cons q qs ih =>
    simp only [List.map_cons, List.nodup_cons] at hnd
    rcases List.mem_cons.mp hp with rfl | hmem
    · simp [dictGetD]
    · have hq : q.1 ≠ p.1 := by
        intro he
        exact hnd.1 (he ▸ List.mem_map.mpr ⟨p, hmem, rfl⟩)
      simp only [dictGetD, List.find?_cons] at *
      rw [show (q.1 == p.1) = false from beq_eq_false_iff_ne.mpr hq]
      exact ih hnd.2 hmem

theorem dictGetD_pos_mem (m : List (String × Nat)) (k : String)
    (h : 0 < dictGetD m k 0) : ∃ p ∈ m, p.1 = k ∧ p.2 = dictGetD m k 0 := by
  unfold dictGetD at *
  rcases hf : m.find? (fun p => p.1 == k) with _ | p
  · rw [hf] at h
    exact absurd h (by simp)
  · rw [hf] at h ⊢
    refine ⟨p, List.mem_of_find?_eq_some hf, ?_, rfl⟩
    have hpk := List.find?_some hf
    simpa using hpk

theorem dictGetD_le_sumCounts (m : List (String × Nat)) (k : String) :
    dictGetD m k 0 ≤ sumCounts m k := by
  induction m with
  | nil => simp [dictGetD, sumCounts]
  | cons p ps ih =>
    by_cases hp : p.1 = k
    · simp only [dictGetD, sumCounts, List.find?_cons, List.filter_cons] at *
      simp [hp]
    · simp only [dictGetD, sumCounts, List.find?_cons, List.filter_cons] at *
      simp only [show (p.1 == k) = false from beq_eq_false_iff_ne.mpr hp, if_false]
      exact ih

theorem sumCounts_cons (p : String × Nat) (ps : List (String × Nat)) (k : String) :
    sumCounts (p :: ps) k = (if p.1 = k then p.2 else 0) + sumCounts ps k := by
  by_cases hp : p.1 = k <;> simp [sumCounts, List.filter_cons, hp]

theorem dictGetD_mergeCounts (cand src : List (String × Nat)) (k : String) :
    dictGetD (mergeCounts cand src) k 0 = dictGetD cand k 0 + sumCounts src k := by
  induction src generalizing cand with
  | nil => simp [mergeCounts, sumCounts]
  | cons lc rest ih =>
    show dictGetD (mergeCounts (dictSet cand lc.1 (dictGetD cand lc.1 0 + lc.2)) rest) k 0 = _
    rw [ih, sumCounts_cons]
    by_cases hk : lc.1 = k
    · rw [hk, dictGetD_dictSet_self]
      simp only [hk, if_true]
      omega
    · rw [dictGetD_dictSet_ne _ _ _ _ _ (Ne.symm hk)]
      simp only [hk, if_false]
      omega

theorem nodupKeys_mergeCounts (cand src : List (String × Nat))
    (h : (cand.map Prod.fst).Nodup) : ((mergeCounts cand src).map Prod.fst).Nodup := by
  induction src generalizing cand with
  | nil => exact h
  | cons lc rest ih =>
    show ((mergeCounts (dictSet cand lc.1 (dictGetD cand lc.1 0 + lc.2)) rest).map Prod.fst).Nodup
    exact ih _ (nodupKeys_dictSet _ _ _ h)

theorem mem_insertDescBy (f : α → Nat) (x a : α) (l : List α) :
    a ∈ insertDescBy f x l ↔ a = x ∨ a ∈ l := by
  induction l with
  | nil => simp [insertDescBy]
  | cons y ys ih =>
    simp only [insertDescBy]
    split
    · simp
    · simp only [List.mem_cons, ih]
      tauto

theorem length_insertDescBy (f : α → Nat) (x : α) (l : List α) :
    (insertDescBy f x l).length = l.length + 1 := by
  induction l with
  | nil => rfl
  | cons y ys ih =>
    simp only [insertDescBy]
    split
    · rfl
    · simp [ih]

theorem sortDescBy_cons (f : α → Nat) (y : α) (ys : List α) :
    sortDescBy f (y :: ys) = insertDescBy f y (sortDescBy f ys) := rfl

theorem mem_sortDescBy (f : α → Nat) (a : α) (l : List α) :
    a ∈ sortDescBy f l ↔ a ∈ l := by
  induction l with
  | nil => simp [sortDescBy]
  | cons y ys ih => rw [sortDescBy_cons, mem_insertDescBy, ih, List.mem_cons]

theorem length_sortDescBy (f : α → Nat) (l : List α) :
    (sortDescBy f l).length = l.length := by
  induction l with
  | nil => rfl
  | cons y ys ih => rw [sortDescBy_cons, length_insertDescBy, ih, List.length_cons]

theorem pairwise_insertDescBy (f : α → Nat) (x : α) (l : List α)
    (h : l.Pairwise (fun a b => f b ≤ f a)) :
    (insertDescBy f x l).Pairwise (fun a b => f b ≤ f a) := by
  induction l with
  | nil => simp [insertDescBy]
  | cons y ys ih =>
    rcases List.pairwise_cons.mp h with ⟨hy, hys⟩
    simp only [insertDescBy]
    split
    · rename_i hle
      refine List.pairwise_cons.mpr ⟨?_, h⟩
      intro b hb
      rcases List.mem_cons.mp hb with rfl | hb'
      · exact hle
      · exact le_trans (hy b hb') hle
    · rename_i hgt
      refine List.pairwise_cons.mpr ⟨?_, ih hys⟩
      intro b hb
      rcases (mem_insertDescBy f x b ys).mp hb with rfl | hb'
      · exact Nat.le_of_lt (Nat.lt_of_not_le hgt)
      · exact hy b hb'

theorem pairwise_sortDescBy (f : α → Nat) (l : List α) :
    (sortDescBy f l).Pairwise (fun a b => f b ≤ f a) := by
  induction l with
  | nil => simp [sortDescBy]
  | cons y ys ih => rw [sortDescBy_cons]; exact pairwise_insertDescBy f y _ ih

/-! Helper lemmas about the organization engine. -/

theorem organizeStep_staged (eng : OrgEngine) (root : FsPath)
    (moveOk : FsPath → FsPath → Bool) (fo : FileObject) :
    (organizeStep eng root moveOk fo).2
      = decide (fo.errors ≠ [] ∨ fo.confidence_score < eng.confidence_threshold) := by
  simp only [organizeStep]
  split
  · rfl
  · split <;> rfl

theorem organizeStep_preserves (eng : OrgEngine) (root : FsPath)
    (moveOk : FsPath → FsPath → Bool) (fo : FileObject) :
    (organizeStep eng root moveOk fo).1.errors = fo.errors ∧
    (organizeStep eng root moveOk fo).1.confidence_score = fo.confidence_score ∧
    (organizeStep eng root moveOk fo).1.labels = fo.labels ∧
    (organizeStep eng root moveOk fo).1.path = fo.path ∧
    (organizeStep eng root moveOk fo).1.mime_type = fo.mime_type := by
  simp only [organizeStep]
  split
  · exact ⟨rfl, rfl, rfl, rfl, rfl⟩
  · split <;> exact ⟨rfl, rfl, rfl, rfl, rfl⟩

theorem organize_files_cons (eng : OrgEngine) (root : FsPath)
    (moveOk : FsPath → FsPath → Bool) (fo : FileObject) (rest : List FileObject) :
    organize_files eng root moveOk (fo :: rest)
      = ((organizeStep eng root moveOk fo).1 :: (organize_files eng root moveOk rest).1,
         (if (organizeStep eng root moveOk fo).2
            then (organize_files eng root moveOk rest).2.1
            else (organize_files eng root moveOk rest).2.1 + 1),
         (if (organizeStep eng root moveOk fo).2
            then (organize_files eng root moveOk rest).2.2 + 1
            else (organize_files eng root moveOk rest).2.2)) := rfl

/-- Claim C1: in `organize_files`, a record with a non-empty error list or a
confidence score strictly below the threshold is routed to the staging
directory and counted as staged (errors force staging no matter the
score); a record with no errors and a score at or above the threshold is
routed to `root` joined with `determine_category` and counted as moved. -/
theorem organize_files_routing (eng : OrgEngine) (root : FsPath)
    (moveOk : FsPath → FsPath → Bool) (fo : FileObject) (rest : List FileObject) :
    (fo.errors ≠ [] ∨ fo.confidence_score < eng.confidence_threshold →
      destinationDir eng root fo = root ++ [eng.staging_dir_name] ∧
      (organize_files eng root moveOk (fo :: rest)).2.2
        = (organize_files eng root moveOk rest).2.2 + 1 ∧
      (organize_files eng root moveOk (fo :: rest)).2.1
        = (organize_files eng root moveOk rest).2.1) ∧
    (fo.errors = [] → eng.confidence_threshold ≤ fo.confidence_score →
      destinationDir eng root fo = root ++ determine_category fo ∧
      (organize_files eng root moveOk (fo :: rest)).2.1
        = (organize_files eng root moveOk rest).2.1 + 1 ∧
      (organize_files eng root moveOk (fo :: rest)).2.2
        = (organize_files eng root moveOk rest).2.2) := by
  constructor
  · intro h
    refine ⟨by rw [destinationDir, if_pos h], ?_, ?_⟩ <;>
      simp [organize_files_cons, organizeStep_staged, h]
  · intro h1 h2
    have hc : ¬(fo.errors ≠ [] ∨ fo.confidence_score < eng.confidence_threshold) := by
      simp [h1, not_lt, h2]
    refine ⟨by rw [destinationDir, if_neg hc], ?_, ?_⟩ <;>
      simp [organize_files_cons, organizeStep_staged, hc]

/-- Witness for C1 at concrete inputs: a record with an error is staged
despite a maximal confidence score, and a clean confident record is moved
into its category. -/
theorem organize_files_routing_witness :
    (destinationDir ⟨70, "_UNKNOWN_NEEDS_REVIEW"⟩ ["r"]
        { path := ["r", "a.txt"], mime_type := "text/plain",
          confidence_score := 100, errors := ["boom"] }
      = ["r", "_UNKNOWN_NEEDS_REVIEW"] ∧
     (organize_files ⟨70, "_UNKNOWN_NEEDS_REVIEW"⟩ ["r"] (fun _ _ => true)
        [{ path := ["r", "a.txt"], mime_type := "text/plain",
           confidence_score := 100, errors := ["boom"] }]).2.2
      = (organize_files ⟨70, "_UNKNOWN_NEEDS_REVIEW"⟩ ["r"] (fun _ _ => true) []).2.2 + 1 ∧
     (organize_files ⟨70, "_UNKNOWN_NEEDS_REVIEW"⟩ ["r"] (fun _ _ => true)
        [{ path := ["r", "a.txt"], mime_type := "text/plain",
           confidence_score := 100, errors := ["boom"] }]).2.1
      = (organize_files ⟨70, "_UNKNOWN_NEEDS_REVIEW"⟩ ["r"] (fun _ _ => true) []).2.1) ∧
    (destinationDir ⟨70, "_UNKNOWN_NEEDS_REVIEW"⟩ ["r"]
        { path := ["r", "b.txt"], mime_type := "text/plain", confidence_score := 80 }
      = ["r", "Documents", "Text"] ∧
     (organize_files ⟨70, "_UNKNOWN_NEEDS_REVIEW"⟩ ["r"] (fun _ _ => true)
        [{ path := ["r", "b.txt"], mime_type := "text/plain", confidence_score := 80 }]).2.1
      = (organize_files ⟨70, "_UNKNOWN_NEEDS_REVIEW"⟩ ["r"] (fun _ _ => true) []).2.1 + 1 ∧
     (organize_files ⟨70, "_UNKNOWN_NEEDS_REVIEW"⟩ ["r"] (fun _ _ => true)
        [{ path := ["r", "b.txt"], mime_type := "text/plain", confidence_score := 80 }]).2.2
      = (organize_files ⟨70, "_UNKNOWN_NEEDS_REVIEW"⟩ ["r"] (fun _ _ => true) []).2.2) := by
  constructor
  · exact (organize_files_routing ⟨70, "_UNKNOWN_NEEDS_REVIEW"⟩ ["r"] (fun _ _ => true)
      { path := ["r", "a.txt"], mime_type := "text/plain",
        confidence_score := 100, errors := ["boom"] } []).1 (by decide)
  · have h := (organize_files_routing ⟨70, "_UNKNOWN_NEEDS_REVIEW"⟩ ["r"] (fun _ _ => true)
      { path := ["r", "b.txt"], mime_type := "text/plain", confidence_score := 80 } []).2
      rfl (by decide)
    refine ⟨?_, h.2⟩
    rw [h.1]
    rfl

/-- Claim C10: `organize_files` counts every record exactly once — the
moved and staged counts always sum to the number of input records — and
the two counts do not depend on the move oracle at all (a failed or
skipped move still counts the same way). -/
theorem organize_files_counts (eng : OrgEngine) (root : FsPath)
    (moveOk moveOk2 : FsPath → FsPath → Bool) (files : List FileObject) :
    (organize_files eng root moveOk files).2.1 + (organize_files eng root moveOk files).2.2
      = files.length ∧
    (organize_files eng root moveOk files).2 = (organize_files eng root moveOk2 files).2 := by
  induction files with
  | nil => exact ⟨rfl, rfl⟩
  | cons fo rest ih =>
    rw [organize_files_cons, organize_files_cons,
      organizeStep_staged eng root moveOk fo, organizeStep_staged eng root moveOk2 fo]
    rcases ih with ⟨h1, h2⟩
    constructor
    · simp only [List.length_cons]
      split <;> omega
    · rw [h2]

/-- Claim C8: for a record entering `organize_files` with no `target_path`,
the step sets `target_path` exactly when the file is physically moved: it
stays `none` when the move is skipped because the destination equals the
current path, stays `none` when `shutil.move` fails, and becomes the
destination exactly when the move succeeds. -/
theorem organize_target_path_iff_moved (eng : OrgEngine) (root : FsPath)
    (moveOk : FsPath → FsPath → Bool) (fo : FileObject)
    (h : fo.target_path = none) :
    (destinationDir eng root fo ++ [pathName fo.path] = fo.path →
      (organizeStep eng root moveOk fo).1.target_path = none) ∧
    (destinationDir eng root fo ++ [pathName fo.path] ≠ fo.path →
      moveOk fo.path (destinationDir eng root fo ++ [pathName fo.path]) = false →
      (organizeStep eng root moveOk fo).1.target_path = none) ∧
    (destinationDir eng root fo ++ [pathName fo.path] ≠ fo.path →
      moveOk fo.path (destinationDir eng root fo ++ [pathName fo.path]) = true →
      (organizeStep eng root moveOk fo).1.target_path
        = some (destinationDir eng root fo ++ [pathName fo.path])) := by
  refine ⟨?_, ?_, ?_⟩
  · intro hskip
    simp only [organizeStep, if_pos hskip]
    exact h
  · intro hne hmf
    simp only [organizeStep, if_neg hne, hmf, Bool.false_eq_true, if_false]
    exact h
  · intro hne hmt
    simp only [organizeStep, if_neg hne, hmt, if_true]

/-- Witness for C8 at concrete inputs: a record at a wrong location whose
move succeeds gets `target_path` set to the destination; with a failing
move it stays `none`. -/
theorem organize_target_path_iff_moved_witness :
    (organizeStep ⟨70, "_UNKNOWN_NEEDS_REVIEW"⟩ ["r"] (fun _ _ => true)
        { path := ["r", "b.txt"], mime_type := "text/plain",
          confidence_score := 80 }).1.target_path
      = some (destinationDir ⟨70, "_UNKNOWN_NEEDS_REVIEW"⟩ ["r"]
          { path := ["r", "b.txt"], mime_type := "text/plain", confidence_score := 80 }
          ++ [pathName ["r", "b.txt"]]) ∧
    (organizeStep ⟨70, "_UNKNOWN_NEEDS_REVIEW"⟩ ["r"] (fun _ _ => false)
        { path := ["r", "b.txt"], mime_type := "text/plain",
          confidence_score := 80 }).1.target_path = none := by
  constructor
  · exact (organize_target_path_iff_moved ⟨70, "_UNKNOWN_NEEDS_REVIEW"⟩ ["r"]
      (fun _ _ => true)
      { path := ["r", "b.txt"], mime_type := "text/plain", confidence_score := 80 }
      rfl).2.2 (by decide) rfl
  · exact (organize_target_path_iff_moved ⟨70, "_UNKNOWN_NEEDS_REVIEW"⟩ ["r"]
      (fun _ _ => false)
      { path := ["r", "b.txt"], mime_type := "text/plain", confidence_score := 80 }
      rfl).2.1 (by decide) rfl

/-! Cleanup engine lemmas for claim C7. -/

theorem cleanup_foldl_keeps_root (root : FsPath) (ds : List FsPath)
    (hds : ∀ d ∈ ds, d ≠ root) :
    ∀ acc : Fs × Nat, root ∈ acc.1.dirs → root ∈ (ds.foldl cleanupStep acc).1.dirs := by
  induction ds with
  | nil => intro acc hacc; exact hacc
  | cons d rest ih =>
    intro acc hacc
    simp only [List.foldl_cons]
    refine ih (fun x hx => hds x (List.mem_cons_of_mem d hx)) _ ?_
    have hdr : d ≠ root := hds d (List.mem_cons_self d rest)
    simp only [cleanupStep]
    split
    · simp only [List.mem_filter]
      exact ⟨hacc, by simpa using Ne.symm hdr⟩
    · exact hacc

/-- The concrete tree of the C7 scenario: `root/nested/empty` with no file
anywhere under `root/nested`, and one file directly in `root`. -/
def fsNested : Fs :=
  { dirs := [["root"], ["root", "nested"], ["root", "nested", "empty"]],
    files := [["root", "keep.txt"]] }

/-- Claim C7: one deepest-first sweep over `fsNested` removes both
`root/nested/empty` and `root/nested` (the parent becomes empty within the
same pass and is still caught), returns a count of 2, and in general a
sweep never removes the scan root itself. -/
theorem remove_empty_directories_bottom_up :
    remove_empty_directories fsNested ["root"]
      = ({ dirs := [["root"]], files := [["root", "keep.txt"]] }, 2) ∧
    (∀ (fs : Fs) (root : FsPath), root ∈ fs.dirs →
      root ∈ (remove_empty_directories fs root).1.dirs) := by
  constructor
  · decide
  · intro fs root hroot
    apply cleanup_foldl_keeps_root
    · intro d hd
      rw [mem_sortDescBy] at hd
      have := List.of_mem_filter hd
      simp only [decide_eq_true_eq] at this
      exact this.1
    · exact hroot

/-- Witness for C7's general conjunct at a concrete input: the scan root of
`fsNested` survives the sweep. -/
theorem remove_empty_directories_bottom_up_witness :
    ["root"] ∈ (remove_empty_directories fsNested ["root"]).1.dirs :=
  remove_empty_directories_bottom_up.2 fsNested ["root"] (by decide)

/-- Counterexample to claim C3: on a learning-state file whose contents are
not valid JSON, `LearningStore.load` does not return a store — the uncaught
`json.loads` exception propagates (the code only guards against the file
being absent). -/
theorem load_malformed_cx :
    (LearningStore.load (StateFile.malformed "not valid json")).isOk = false := rfl

/-- Claim C3, amended: `load` returns a store for an absent file (empty
mappings) and for any valid JSON object (each missing field defaulting to
an empty mapping); on malformed contents `json.loads` raises and `load`
propagates the exception instead of degrading to an empty store. -/
theorem load_total_on_wellformed :
    LearningStore.load StateFile.absent
      = Except.ok { extension_labels := [], mime_labels := [] } ∧
    (∀ ext mime, LearningStore.load (StateFile.object ext mime)
      = Except.ok { extension_labels := ext.getD [], mime_labels := mime.getD [] }) ∧
    (∀ raw, LearningStore.load (StateFile.malformed raw)
      = Except.error "json.decoder.JSONDecodeError") :=
  ⟨rfl, fun _ _ => rfl, fun _ => rfl⟩

/-- Counterexample to claim C4: when the MIME detector raises (the libmagic
backend raises `IOError` on an unreadable path), `process_file` propagates
the exception instead of returning a `FileObject` — the detector call sits
before the `try` block. -/
theorem process_file_mime_error_cx :
    process_file { mime_result := Except.error "magic IOError",
                   extract_result := Except.ok { metadata := [], content := "" } }
        none ["home", "file.bin"]
      = Except.error "magic IOError" := rfl

/-- Claim C4, amended: once MIME detection has returned a type, every
failure of the remaining steps is caught and `process_file` returns a
record; in particular an extraction failure is recorded into the record's
`errors` list. Exceptions raised by MIME detection itself propagate. -/
theorem process_file_total_after_mime (env : ProcEnv) (store : Option LearningStore)
    (file_path : FsPath) (m : String) (h : env.mime_result = Except.ok m) :
    (∃ fo : FileObject, process_file env store file_path = Except.ok fo) ∧
    (∀ e, env.extract_result = Except.error e →
      process_file env store file_path
        = Except.ok { path := file_path, mime_type := m, errors := [e] }) := by
  constructor
  · rcases hx : env.extract_result with e | r <;>
      exact ⟨_, by simp only [process_file, h, hx]; rfl⟩
  · intro e he
    simp only [process_file, h, he]
    rfl

/-- Witness for C4's amended theorem at a concrete input: a permission
error during extraction is caught and lands in the record's `errors`. -/
theorem process_file_total_after_mime_witness :
    process_file { mime_result := Except.ok "text/plain",
                   extract_result := Except.error "PermissionError" }
        none ["r", "f.txt"]
      = Except.ok { path := ["r", "f.txt"], mime_type := "text/plain",
                    errors := ["PermissionError"] } :=
  (process_file_total_after_mime
    { mime_result := Except.ok "text/plain",
      extract_result := Except.error "PermissionError" }
    none ["r", "f.txt"] "text/plain" rfl).2 "PermissionError" rfl

/-! Helper lemmas about the label-override steps of `process_file`. -/

theorem imageOverride_conf (m ext : String) (labels : List String) (conf : Rat)
    (h : strStartsWith m "image/" = true ∨ ext ∈ image_extensions) :
    85 ≤ (imageOverride m ext labels conf).2 ∧ (imageOverride m ext labels conf).1 ≠ [] := by
  simp only [imageOverride, if_pos h]
  constructor
  · exact le_max_right conf 85
  · split <;> simp_all

theorem videoOverride_skip (m : String) (labels : List String) (conf : Rat)
    (h : labels ≠ []) : videoOverride m labels conf = (labels, conf) := by
  simp only [videoOverride]
  rw [if_neg]
  rintro ⟨h1, _⟩
  exact h h1

theorem audioOverride_skip (m : String) (labels : List String) (conf : Rat)
    (h : labels ≠ []) : audioOverride m labels conf = (labels, conf) := by
  simp only [audioOverride]
  rw [if_neg]
  rintro ⟨h1, _⟩
  exact h h1

theorem suggest_labels_boost_nonneg (ls : LearningStore) (fo : FileObject) (limit : Nat) :
    0 ≤ (ls.suggest_labels fo limit).2 := by
  simp only [LearningStore.suggest_labels]
  rcases h : sortDescBy (fun p => p.2) (candidatesFor ls fo) with _ | ⟨top, rest⟩ <;>
    simp only [h]
  · norm_num
  · refine le_min (by norm_num) ?_
    positivity

theorem learningAugment_conf_floor (store : Option LearningStore) (fo : FileObject)
    (labels : List String) (conf : Rat) (h85 : 85 ≤ conf) :
    85 ≤ (learningAugment store fo labels conf).2 := by
  cases store with
  | none => exact h85
  | some ls =>
    simp only [learningAugment]
    split
    · refine le_min (by norm_num) ?_
      have hb := suggest_labels_boost_nonneg ls fo 3
      linarith
    · exact h85

/-- Claim C9 (implicit): for a file whose detected MIME type has the
`image/` prefix or whose lower-cased extension is a recognized image
extension, a successfully processed record always has a confidence score
of at least 85 — the floor `max(confidence, 85)` is applied even when
content- or metadata-derived labels were already produced (only the
`photo` label assignment is conditional on empty labels). -/
theorem image_confidence_floor (env : ProcEnv) (store : Option LearningStore)
    (file_path : FsPath) (m : String) (r : MetadataResult)
    (hm : env.mime_result = Except.ok m)
    (hx : env.extract_result = Except.ok r)
    (himg : strStartsWith m "image/" = true
      ∨ strToLower (pathSuffix file_path) ∈ image_extensions) :
    ∃ fo : FileObject, process_file env store file_path = Except.ok fo ∧
      85 ≤ fo.confidence_score := by
  rcases hpf : process_file env store file_path with e | fo
  · simp only [process_file, hm, hx] at hpf
    exact Except.noConfusion hpf
  · refine ⟨fo, rfl, ?_⟩
    simp only [process_file, hm, hx, Except.ok.injEq] at hpf
    subst hpf
    dsimp only
    obtain ⟨hge, hne⟩ := imageOverride_conf m (strToLower (pathSuffix file_path))
      (generate_labels (strTake r.content 500) r.metadata).1
      (generate_labels (strTake r.content 500) r.metadata).2 himg
    rw [videoOverride_skip _ _ _ hne]
    dsimp only
    rw [audioOverride_skip _ _ _ hne]
    dsimp only
    exact learningAugment_conf_floor _ _ _ _ hge

/-- Witness for C9 at a concrete input: a `.png`-named file with image MIME
type, empty metadata and content gets confidence at least 85. -/
theorem image_confidence_floor_witness :
    ∃ fo : FileObject,
      process_file { mime_result := Except.ok "image/png",
                     extract_result := Except.ok { metadata := [], content := "" } }
          none ["d.png"]
        = Except.ok fo ∧ 85 ≤ fo.confidence_score :=
  image_confidence_floor
    { mime_result := Except.ok "image/png",
      extract_result := Except.ok { metadata := [], content := "" } }
    none ["d.png"] "image/png" { metadata := [], content := "" } rfl rfl
    (Or.inl (by decide))

theorem suggest_labels_congr (ls : LearningStore) (a b : FileObject)
    (hp : a.path = b.path) (hm : a.mime_type = b.mime_type) (limit : Nat) :
    ls.suggest_labels a limit = ls.suggest_labels b limit := by
  simp only [LearningStore.suggest_labels, candidatesFor, hp, hm]

theorem suggest_labels_zeta :
    LearningStore.suggest_labels
        { extension_labels := [(".txt", [("zeta", 1)])], mime_labels := [] }
        { path := ["r", "f.txt"], mime_type := "text/plain" } 3
      = (["zeta"], 2) := by
  simp only [LearningStore.suggest_labels]
  have hc : candidatesFor
      { extension_labels := [(".txt", [("zeta", 1)])], mime_labels := [] }
      { path := ["r", "f.txt"], mime_type := "text/plain" } = [("zeta", 1)] := by decide
  rw [hc]
  have hs : sortDescBy (fun p => p.2) [("zeta", 1)] = [("zeta", 1)] := by decide
  rw [hs]
  have hd : dictGetD [("zeta", 1)] "zeta" 0 = 1 := by decide
  simp only [List.map_cons, List.map_nil, List.take, hd]
  norm_num

/-- Counterexample to claim C5: a record whose labels are a non-override,
non-empty list (metadata labels `["alpha notes", "bob"]`) still receives
the confidence boost when the Learning Store has suggestions — the
`min(100, confidence + boost)` line sits outside the inner replacement
condition. With the store present the confidence is 92, without it 90; the
labels are unchanged in both runs, so the claim's "labels and confidence
are unchanged by this step" is false for the confidence part. -/
theorem learning_augment_boosts_kept_labels_cx :
    process_file
        { mime_result := Except.ok "text/plain",
          extract_result := Except.ok
            { metadata := [("title", "Alpha Notes"), ("author", "Bob")], content := "" } }
        (some { extension_labels := [(".txt", [("zeta", 1)])], mime_labels := [] })
        ["r", "f.txt"]
      = Except.ok { path := ["r", "f.txt"], mime_type := "text/plain",
                    metadata := [("title", "Alpha Notes"), ("author", "Bob")],
                    labels := ["alpha notes", "bob"], confidence_score := 92,
                    is_consistent := false } ∧
    process_file
        { mime_result := Except.ok "text/plain",
          extract_result := Except.ok
            { metadata := [("title", "Alpha Notes"), ("author", "Bob")], content := "" } }
        none ["r", "f.txt"]
      = Except.ok { path := ["r", "f.txt"], mime_type := "text/plain",
                    metadata := [("title", "Alpha Notes"), ("author", "Bob")],
                    labels := ["alpha notes", "bob"], confidence_score := 90,
                    is_consistent := false } := by
  constructor
  · simp only [process_file]
    have hg : generate_labels (strTake "" 500) [("title", "Alpha Notes"), ("author", "Bob")]
        = (["alpha notes", "bob"], 90) := by decide
    rw [hg]
    have hio : imageOverride "text/plain" (strToLower (pathSuffix ["r", "f.txt"]))
        ((["alpha notes", "bob"], (90 : Rat)).1) ((["alpha notes", "bob"], (90 : Rat)).2)
        = (["alpha notes", "bob"], 90) := by decide
    rw [hio]
    have hvo : videoOverride "text/plain" ((["alpha notes", "bob"], (90 : Rat)).1)
        ((["alpha notes", "bob"], (90 : Rat)).2) = (["alpha notes", "bob"], 90) := by decide
    rw [hvo]
    have hao : audioOverride "text/plain" ((["alpha notes", "bob"], (90 : Rat)).1)
        ((["alpha notes", "bob"], (90 : Rat)).2) = (["alpha notes", "bob"], 90) := by decide
    rw [hao]
    simp only [learningAugment]
    rw [suggest_labels_congr
      { extension_labels := [(".txt", [("zeta", 1)])], mime_labels := [] }
      { path := ["r", "f.txt"], mime_type := "text/plain",
        metadata := [("title", "Alpha Notes"), ("author", "Bob")],
        is_consistent := validate_filename ["r", "f.txt"]
          [("title", "Alpha Notes"), ("author", "Bob")] }
      { path := ["r", "f.txt"], mime_type := "text/plain" } rfl rfl 3]
    rw [suggest_labels_zeta]
    rw [if_pos (by decide : ((["zeta"], (2 : Rat)).1 ≠ []))]
    rw [if_neg (by decide : ¬((["alpha notes", "bob"], (90 : Rat)).1 = []
      ∨ (["alpha notes", "bob"], (90 : Rat)).1 = ["photo"]
      ∨ (["alpha notes", "bob"], (90 : Rat)).1 = ["video"]
      ∨ (["alpha notes", "bob"], (90 : Rat)).1 = ["audio"]))]
    simp only [Except.ok.injEq, FileObject.mk.injEq]
    norm_num
    decide
  · rfl

/-- Claim C5, amended: when the Learning Store returns a non-empty
suggestion list, the labels are replaced by the suggestions exactly when
the current labels are empty or one of the single-label media overrides;
the confidence boost `min(100, confidence + boost)` is applied in both
cases — also when the current labels are kept. With no suggestions,
labels and confidence are unchanged. -/
theorem learning_augment_behavior (ls : LearningStore) (fo : FileObject)
    (labels : List String) (confidence : Rat) :
    ((ls.suggest_labels fo 3).1 ≠ [] →
      (labels = [] ∨ labels = ["photo"] ∨ labels = ["video"] ∨ labels = ["audio"]) →
      learningAugment (some ls) fo labels confidence
        = ((ls.suggest_labels fo 3).1, min 100 (confidence + (ls.suggest_labels fo 3).2))) ∧
    ((ls.suggest_labels fo 3).1 ≠ [] →
      ¬(labels = [] ∨ labels = ["photo"] ∨ labels = ["video"] ∨ labels = ["audio"]) →
      learningAugment (some ls) fo labels confidence
        = (labels, min 100 (confidence + (ls.suggest_labels fo 3).2))) ∧
    ((ls.suggest_labels fo 3).1 = [] →
      learningAugment (some ls) fo labels confidence = (labels, confidence)) := by
  refine ⟨?_, ?_, ?_⟩
  · intro hs hc
    simp only [learningAugment, if_pos hs, if_pos hc]
  · intro hs hc
    simp only [learningAugment, if_pos hs, if_neg hc]
  · intro hs
    simp only [learningAugment]
    rw [if_neg]
    exact fun hne => hne hs

/-- Witness for C5's amended theorem at a concrete input: a `photo`
placeholder label is replaced by the suggestion and the boost applies. -/
theorem learning_augment_behavior_witness :
    learningAugment
        (some { extension_labels := [(".txt", [("zeta", 1)])], mime_labels := [] })
        { path := ["r", "f.txt"], mime_type := "text/plain" } ["photo"] 85
      = ((LearningStore.suggest_labels
            { extension_labels := [(".txt", [("zeta", 1)])], mime_labels := [] }
            { path := ["r", "f.txt"], mime_type := "text/plain" } 3).1,
         min 100 (85 + (LearningStore.suggest_labels
            { extension_labels := [(".txt", [("zeta", 1)])], mime_labels := [] }
            { path := ["r", "f.txt"], mime_type := "text/plain" } 3).2)) :=
  (learning_augment_behavior
    { extension_labels := [(".txt", [("zeta", 1)])], mime_labels := [] }
    { path := ["r", "f.txt"], mime_type := "text/plain" } ["photo"] 85).1
    (by rw [suggest_labels_zeta]; decide) (by decide)

theorem update_congr (store : LearningStore) (a b : FileObject)
    (hl : a.labels = b.labels) (hp : a.path = b.path) (hm : a.mime_type = b.mime_type) :
    store.update a = store.update b := by
  simp only [LearningStore.update, hl, hp, hm]

theorem organize_files_records (eng : OrgEngine) (root : FsPath)
    (moveOk : FsPath → FsPath → Bool) (files : List FileObject) :
    (organize_files eng root moveOk files).1
      = files.map (fun fo => (organizeStep eng root moveOk fo).1) := by
  induction files with
  | nil => rfl
  | cons fo rest ih => rw [organize_files_cons]; simp [ih]

theorem organizeCommandUpdates_skips (threshold : Rat) (records : List FileObject)
    (store : LearningStore)
    (h : ∀ fo ∈ records, fo.errors ≠ [] ∨ fo.confidence_score < threshold) :
    organizeCommandUpdates threshold records store = store := by
  induction records generalizing store with
  | nil => rfl
  | cons fo rest ih =>
    have hfo := h fo (List.mem_cons_self fo rest)
    have hstep : (if fo.errors ≠ [] then store
        else if fo.confidence_score < threshold then store
        else store.update fo) = store := by
      rcases hfo with he | hc
      · rw [if_pos he]
      · by_cases he2 : fo.errors ≠ []
        · rw [if_pos he2]
        · rw [if_neg he2, if_pos hc]
    show organizeCommandUpdates threshold rest
      (if fo.errors ≠ [] then store else if fo.confidence_score < threshold then store
       else store.update fo) = store
    rw [hstep]
    exact ih store (fun x hx => h x (List.mem_cons_of_mem fo hx))

/-- Counterexample to claim C2: a record with no errors and confidence at
or above the threshold whose physical move FAILS (its `target_path` stays
`none`) still mutates the Learning Store — the update loop in
`OrganizeCommand.execute` never inspects the move outcome. -/
theorem learning_update_failed_move_cx :
    ((organizeCommand ⟨70, "_UNKNOWN_NEEDS_REVIEW"⟩ ["r"] (fun _ _ => false)
        [{ path := ["r", "a.png"], mime_type := "image/png",
           labels := ["design"], confidence_score := 90 }] {}).1.1.map
      (fun fo => fo.target_path)) = [none] ∧
    (organizeCommand ⟨70, "_UNKNOWN_NEEDS_REVIEW"⟩ ["r"] (fun _ _ => false)
        [{ path := ["r", "a.png"], mime_type := "image/png",
           labels := ["design"], confidence_score := 90 }] {}).2
      = { extension_labels := [(".png", [("design", 1)])],
          mime_labels := [("image/png", [("design", 1)])] } := by
  constructor <;> rfl

/-- Claim C2, amended: the update loop run after `organize_files` leaves
the store untouched for every staged or errored record (errors non-empty
or confidence below threshold), and otherwise calls `update` on the record
regardless of whether the physical move succeeded — move failure does not
prevent the mutation. -/
theorem learning_update_restriction (eng : OrgEngine) (root : FsPath)
    (moveOk : FsPath → FsPath → Bool) (files : List FileObject) (store : LearningStore) :
    ((∀ fo ∈ files, fo.errors ≠ [] ∨ fo.confidence_score < eng.confidence_threshold) →
      (organizeCommand eng root moveOk files store).2 = store) ∧
    (∀ fo : FileObject, fo.errors = [] →
      eng.confidence_threshold ≤ fo.confidence_score →
      (organizeCommand eng root moveOk [fo] store).2 = store.update fo) := by
  constructor
  · intro h
    show organizeCommandUpdates eng.confidence_threshold
      (organize_files eng root moveOk files).1 store = store
    apply organizeCommandUpdates_skips
    intro fo2 hfo2
    rw [organize_files_records] at hfo2
    rcases List.mem_map.mp hfo2 with ⟨fo, hfo, rfl⟩
    obtain ⟨he2, hc2, _, _, _⟩ := organizeStep_preserves eng root moveOk fo
    rw [he2, hc2]
    exact h fo hfo
  · intro fo he hc
    show organizeCommandUpdates eng.confidence_threshold
      (organize_files eng root moveOk [fo]).1 store = store.update fo
    rw [organize_files_records]
    show (if (organizeStep eng root moveOk fo).1.errors ≠ [] then store
      else if (organizeStep eng root moveOk fo).1.confidence_score
          < eng.confidence_threshold then store
      else store.update (organizeStep eng root moveOk fo).1) = store.update fo
    obtain ⟨he2, hc2, hl2, hp2, hm2⟩ := organizeStep_preserves eng root moveOk fo
    rw [if_neg (by simp [he2, he]), if_neg (by simp [hc2, not_lt, hc])]
    exact update_congr store _ fo hl2 hp2 hm2

/-- Witness for C2's amended theorem at a concrete input: a clean
confident record is recorded into the store (here with a successful
move). -/
theorem learning_update_restriction_witness :
    (organizeCommand ⟨70, "_UNKNOWN_NEEDS_REVIEW"⟩ ["r"] (fun _ _ => true)
        [{ path := ["r", "a.png"], mime_type := "image/png",
           labels := ["design"], confidence_score := 90 }] {}).2
      = LearningStore.update {}
          { path := ["r", "a.png"], mime_type := "image/png",
            labels := ["design"], confidence_score := 90 } :=
  (learning_update_restriction ⟨70, "_UNKNOWN_NEEDS_REVIEW"⟩ ["r"] (fun _ _ => true)
    [] {}).2
    { path := ["r", "a.png"], mime_type := "image/png",
      labels := ["design"], confidence_score := 90 } rfl (by decide)

theorem nodupKeys_candidatesFor (store : LearningStore) (fo : FileObject) :
    ((candidatesFor store fo).map Prod.fst).Nodup := by
  simp only [candidatesFor]
  exact nodupKeys_mergeCounts _ _ (nodupKeys_mergeCounts _ _ (by simp))

theorem candidates_after_update_pos (store : LearningStore) (r1 r2 : FileObject)
    (l0 : String) (rest : List String) (hl : r1.labels = l0 :: rest)
    (hext : pathSuffix r2.path = pathSuffix r1.path)
    (hmime : r2.mime_type = r1.mime_type) :
    0 < dictGetD (candidatesFor (store.update r1) r2) (strToLower l0) 0 := by
  simp only [candidatesFor, LearningStore.update, hl, hext, hmime]
  rw [dictGetD_dictSet_self, dictGetD_dictSet_self]
  rw [dictGetD_mergeCounts, dictGetD_mergeCounts]
  have h1 : dictGetD
      (dictSet (dictGetD store.extension_labels (strToLower (pathSuffix r1.path)) [])
        (strToLower l0)
        (dictGetD (dictGetD store.extension_labels (strToLower (pathSuffix r1.path)) [])
          (strToLower l0) 0 + 1))
      (strToLower l0) 0
      = dictGetD (dictGetD store.extension_labels (strToLower (pathSuffix r1.path)) [])
          (strToLower l0) 0 + 1 := dictGetD_dictSet_self _ _ _ _
  have h2 := dictGetD_le_sumCounts
    (dictSet (dictGetD store.extension_labels (strToLower (pathSuffix r1.path)) [])
      (strToLower l0)
      (dictGetD (dictGetD store.extension_labels (strToLower (pathSuffix r1.path)) [])
        (strToLower l0) 0 + 1))
    (strToLower l0)
  simp only [dictGetD] at *
  omega

/-- Counterexample to claim C6: with a store already holding three
higher-count labels for the extension, `update` followed by
`suggest_labels` on the same extension and MIME type truncates the freshly
recorded first label (`zeta`, merged count 2) out of the default
`limit = 3` suggestions. -/
theorem suggest_after_update_truncation_cx :
    ({ path := ["r", "f.txt"], mime_type := "text/plain",
       labels := ["zeta"] } : FileObject).labels = ["zeta"] ∧
    (LearningStore.suggest_labels
        (LearningStore.update
          { extension_labels := [(".txt", [("aaaa", 5), ("bbbb", 5), ("cccc", 5)])],
            mime_labels := [] }
          { path := ["r", "f.txt"], mime_type := "text/plain", labels := ["zeta"] })
        { path := ["r", "f.txt"], mime_type := "text/plain", labels := ["zeta"] } 3).1
      = ["aaaa", "bbbb", "cccc"] ∧
    "zeta" ∉ (["aaaa", "bbbb", "cccc"] : List String) := by
  refine ⟨rfl, by decide, by decide⟩

/-- Claim C6, amended: for every store state and records `r1`, `r2` with
the same extension and MIME type where `r1` has a first label, `update r1`
followed by `suggest_labels r2` yields a confidence boost strictly greater
than 0; the lower-cased first label appears among the suggestions provided
the merged candidate table holds at most `limit = 3` distinct labels (with
more candidates the fresh label can be truncated out of the top 3). -/
theorem update_then_suggest (store : LearningStore) (r1 r2 : FileObject)
    (l0 : String) (rest : List String)
    (hl : r1.labels = l0 :: rest)
    (hext : pathSuffix r2.path = pathSuffix r1.path)
    (hmime : r2.mime_type = r1.mime_type) :
    0 < (LearningStore.suggest_labels (store.update r1) r2 3).2 ∧
    ((candidatesFor (store.update r1) r2).length ≤ 3 →
      strToLower l0 ∈ (LearningStore.suggest_labels (store.update r1) r2 3).1) := by
  have hcpos := candidates_after_update_pos store r1 r2 l0 rest hl hext hmime
  obtain ⟨p, hpmem, hpk, hpval⟩ := dictGetD_pos_mem _ _ hcpos
  rcases hs : sortDescBy (fun p => p.2) (candidatesFor (store.update r1) r2)
    with _ | ⟨top, rest2⟩
  · exfalso
    have hpm := (mem_sortDescBy (fun p => p.2) p
      (candidatesFor (store.update r1) r2)).mpr hpmem
    rw [hs] at hpm
    cases hpm
  · have hsg : LearningStore.suggest_labels (store.update r1) r2 3
        = (((top :: rest2).map (fun p => p.1)).take 3,
           min (20 : Rat)
             ((dictGetD (candidatesFor (store.update r1) r2) top.1 0 : Nat) * 2 : Rat)) := by
      simp only [LearningStore.suggest_labels, hs]
    have hpm : p ∈ top :: rest2 := by
      rw [← hs]
      exact (mem_sortDescBy (fun p => p.2) p _).mpr hpmem
    rw [hsg]
    constructor
    · have htopmem : top ∈ candidatesFor (store.update r1) r2 := by
        have hmem2 : top ∈ sortDescBy (fun p => p.2)
            (candidatesFor (store.update r1) r2) := by
          rw [hs]
          exact List.mem_cons_self top rest2
        exact (mem_sortDescBy (fun p => p.2) top _).mp hmem2
      have hlook : dictGetD (candidatesFor (store.update r1) r2) top.1 0 = top.2 :=
        dictGetD_eq_of_mem_nodup _ top 0 (nodupKeys_candidatesFor _ _) htopmem
      have hpw := pairwise_sortDescBy (fun p => p.2) (candidatesFor (store.update r1) r2)
      rw [hs] at hpw
      have hple : p.2 ≤ top.2 := by
        rcases List.mem_cons.mp hpm with rfl | hpm2
        · exact le_refl _
        · exact (List.pairwise_cons.mp hpw).1 p hpm2
      have hpos : 0 < top.2 := by omega
      rw [hlook]
      refine lt_min (by norm_num) ?_
      have htr : (0 : Rat) < (top.2 : Rat) := by exact_mod_cast hpos
      linarith
    · intro hlen
      have hlen2 : ((top :: rest2).map (fun p => p.1)).length ≤ 3 := by
        rw [List.length_map]
        rw [show top :: rest2 = sortDescBy (fun p => p.2)
          (candidatesFor (store.update r1) r2) from hs.symm, length_sortDescBy]
        exact hlen
      rw [List.take_of_length_le hlen2]
      exact hpk ▸ List.mem_map.mpr ⟨p, hpm, rfl⟩

/-- Witness for C6's amended theorem at a concrete input: recording
`Design` for a fresh `.png` store yields a positive boost, and `design` is
among the suggestions (the merged table holds a single candidate). -/
theorem update_then_suggest_witness :
    0 < (LearningStore.suggest_labels
        (LearningStore.update {}
          { path := ["d.png"], mime_type := "image/png", labels := ["Design"] })
        { path := ["d.png"], mime_type := "image/png", labels := ["Design"] } 3).2 ∧
    strToLower "Design" ∈ (LearningStore.suggest_labels
        (LearningStore.update {}
          { path := ["d.png"], mime_type := "image/png", labels := ["Design"] })
        { path := ["d.png"], mime_type := "image/png", labels := ["Design"] } 3).1 :=
  ⟨(update_then_suggest {}
      { path := ["d.png"], mime_type := "image/png", labels := ["Design"] }
      { path := ["d.png"], mime_type := "image/png", labels := ["Design"] }
      "Design" [] rfl rfl rfl).1,
   (update_then_suggest {}
      { path := ["d.png"], mime_type := "image/png", labels := ["Design"] }
      { path := ["d.png"], mime_type := "image/png", labels := ["Design"] }
      "Design" [] rfl rfl rfl).2 (by decide)⟩
